import Mathlib

/-!
Verification of the promo-code and referral-reward subsystem of the
Xatabchik shop bot.

The repository's admin conversation handlers
(src/shop_bot/bot/admin_handlers.py) contain the operator-facing input
validation for promo-code creation and referral settings; those fragments
are embedded directly from the source.  The data layer the handlers call
(shop_bot.data_manager.remnawave_repository / database: promo-code
registry, redemption ledger, balance store, referral reward engine) is not
part of the shown sources, so those components are modelled from the
specification (sections 3 to 5 and 4.1 to 4.5); each such definition says
so in its doc comment.

Conventions: monetary values are rationals (two-decimal fixed point in the
system), timestamps are integers (seconds), counters are naturals, and
strings entered by the operator are modelled as lists of Unicode code
points with ASCII case mapping (the promo-code alphabet is ASCII).
-/

namespace Xatabchik

/-! ## Discount-value validation (admin_promo_set_discount_value) -/

/-- Discount type chosen in the promo-creation flow
(admin_promo_set_discount_type): percentage of the price or a fixed
rouble amount. -/
inductive DiscountType where
  | percent
  | amount
deriving DecidableEq, Repr

/-- Embeds the validation of admin_promo_set_discount_value
(admin_handlers.py lines 3732-3755): the parsed value is rejected when it
is not positive, and a percent value is additionally rejected when it is
at least 100; an accepted value is stored in the draft and the flow
advances.  The parsed number is modelled as a rational; the result is the
stored discount value, or none when the input is rejected and nothing is
stored. -/
def admin_promo_set_discount_value (discount_type : DiscountType) (value : ℚ) :
    Option ℚ :=
  if value ≤ 0 then none
  else if discount_type = DiscountType.percent ∧ 100 ≤ value then none
  else some value

/-- C6: promo-code creation rejects every out-of-range discount value: the
discount-value step stores the value exactly when 0 < value, with
value < 100 additionally required for a percent discount; otherwise the
input is rejected and no promo code is created from it. -/
theorem admin_promo_set_discount_value_range (t : DiscountType) (v : ℚ) :
    admin_promo_set_discount_value t v =
      if 0 < v ∧ (t = DiscountType.percent → v < 100) then some v else none := by
  unfold admin_promo_set_discount_value
  rcases le_or_lt v 0 with h0 | h0
  · rw [if_pos h0, if_neg]
    rintro ⟨h1, -⟩
    exact absurd h0 (not_le.mpr h1)
  · rw [if_neg (not_le.mpr h0)]
    by_cases hp : t = DiscountType.percent ∧ 100 ≤ v
    · rw [if_pos hp, if_neg]
      rintro ⟨-, h2⟩
      exact absurd hp.2 (not_le.mpr (h2 hp.1))
    · rw [if_neg hp, if_pos]
      refine ⟨h0, fun ht => ?_⟩
      by_contra hlt
      exact hp ⟨ht, not_lt.mp hlt⟩

/-! ## Validity-window validation (admin_promo_set_valid_until and
admin_promo_valid_until_buttons) -/

/-- Embeds the guard of admin_promo_set_valid_until (admin_handlers.py
lines 3905-3925): a typed end date is rejected when a start date is
present and the end is not strictly after it.  Timestamps are integers;
a missing bound is none (the date parser maps a skip to None). -/
def valid_until_text_accepted (valid_from valid_until : Option Int) : Bool :=
  match valid_from, valid_until with
  | some vf, some vu => decide (vf < vu)
  | _, _ => true

/-- Buttons offered at the promo valid-until step. -/
inductive ValidUntilButton where
  | plus1d
  | plus7d
  | plus30d
  | skip
deriving DecidableEq, Repr

/-- Seconds in one day, for the timedelta arithmetic of the button path. -/
def secondsPerDay : Int := 86400

/-- Embeds admin_promo_valid_until_buttons (admin_handlers.py lines
3937-3964): skip clears the end date; the other buttons set it to the
start date (or the current time when no start date is set) plus 1, 7 or
30 days. -/
def admin_promo_valid_until_buttons (valid_from : Option Int) (now : Int) :
    ValidUntilButton → Option Int
  | ValidUntilButton.skip => none
  | ValidUntilButton.plus1d => some (valid_from.getD now + 1 * secondsPerDay)
  | ValidUntilButton.plus7d => some (valid_from.getD now + 7 * secondsPerDay)
  | ValidUntilButton.plus30d => some (valid_from.getD now + 30 * secondsPerDay)

/-- Input at the valid-until step: a typed date (already parsed; the
parser maps a skip keyword to none) or one of the buttons. -/
inductive UntilInput where
  | typed (parsed : Option Int)
  | button (b : ValidUntilButton)

/-- Outcome of the valid-until step of the creation flow: none means the
input was rejected and the flow did not advance (nothing is stored);
some vu means the draft stores end bound vu and advances. -/
def promo_valid_until_step (valid_from : Option Int) (now : Int) :
    UntilInput → Option (Option Int)
  | UntilInput.typed vu =>
      if valid_until_text_accepted valid_from vu then some vu else none
  | UntilInput.button b => some (admin_promo_valid_until_buttons valid_from now b)

/-- C7: with a start bound present, a typed end date is stored exactly
when it is strictly after the start, and every end bound stored by any
input path (typed or button) is strictly after the start bound, so a
stored promo code with both bounds present has valid_from < valid_until. -/
theorem promo_validity_window (vf now : Int) (inp : UntilInput) :
    (∀ vu : Int, promo_valid_until_step (some vf) now (UntilInput.typed (some vu)) =
        if vf < vu then some (some vu) else none) ∧
    (∀ r b, promo_valid_until_step (some vf) now inp = some r →
        r = some b → vf < b) := by
  constructor
  · intro vu
    simp only [promo_valid_until_step, valid_until_text_accepted]
    by_cases h : vf < vu
    · rw [if_pos (by simpa using h), if_pos h]
    · rw [if_neg (by simpa using h), if_neg h]
  · intro r b hstep hr
    subst hr
    cases inp with
    | typed vu =>
      simp only [promo_valid_until_step] at hstep
      by_cases h : valid_until_text_accepted (some vf) vu = true
      · rw [if_pos h] at hstep
        cases vu with
        | none => exact absurd hstep (by simp)
        | some w =>
          have hw : w = b := by simpa using hstep
          subst hw
          simpa [valid_until_text_accepted] using h
      · rw [if_neg h] at hstep
        exact absurd hstep (by simp)
    | button btn =>
      have hbtn : admin_promo_valid_until_buttons (some vf) now btn = some b := by
        simpa [promo_valid_until_step] using hstep
      cases btn with
      | plus1d =>
        have h1 : vf + 1 * 86400 = b := by
          simpa [admin_promo_valid_until_buttons, secondsPerDay] using hbtn
        omega
      | plus7d =>
        have h1 : vf + 7 * 86400 = b := by
          simpa [admin_promo_valid_until_buttons, secondsPerDay] using hbtn
        omega
      | plus30d =>
        have h1 : vf + 30 * 86400 = b := by
          simpa [admin_promo_valid_until_buttons, secondsPerDay] using hbtn
        omega
      | skip => exact absurd hbtn (by simp [admin_promo_valid_until_buttons])

/-! ## Referral reward settings (admin_referral_start_bonus_input and
admin_referral_type_chosen) -/

/-- Referral-reward settings rows touched by the two embedded handlers.
The underlying store keeps string values; the boolean flag is therefore
kept as the literal string written by rw_repo.update_setting, and the
bonus amount as the parsed rational. -/
structure ReferralSettings where
  referral_reward_type : String
  enable_fixed_referral_bonus : String
  referral_on_start_referrer_amount : ℚ
deriving DecidableEq

/-- Embeds admin_referral_start_bonus_input (admin_handlers.py lines
1637-1655): a value outside 0..100000 is rejected and the settings are
unchanged; an accepted value is stored and, as a side effect, the
enable_fixed_referral_bonus flag is set to "true" when the value is
positive and to "false" otherwise. -/
def admin_referral_start_bonus_input (s : ReferralSettings) (v : ℚ) :
    ReferralSettings :=
  if v < 0 ∨ 100000 < v then s
  else
    { s with
      referral_on_start_referrer_amount := v
      enable_fixed_referral_bonus := if 0 < v then "true" else "false" }

/-- Embeds admin_referral_type_chosen (admin_handlers.py lines 1533-1551):
an unknown reward type is rejected and the settings are unchanged; a
valid one is stored, and enable_fixed_referral_bonus is set to "true"
exactly for fixed_start_referrer and to "false" for the other two. -/
def admin_referral_type_chosen (s : ReferralSettings) (t : String) :
    ReferralSettings :=
  if t = "percent_purchase" ∨ t = "fixed_purchase" ∨ t = "fixed_start_referrer" then
    { s with
      referral_reward_type := t
      enable_fixed_referral_bonus :=
        if t = "fixed_start_referrer" then "true" else "false" }
  else s

/-- C10: setting the referral start-bonus amount to an accepted value v
sets the enable_fixed_referral_bonus flag to "true" exactly when v > 0
(and to "false" when v = 0); independently, choosing reward type
fixed_start_referrer sets the flag to "true" while choosing either other
reward type sets it to "false". -/
theorem referral_bonus_flag (s : ReferralSettings) (v : ℚ) (t : String) :
    (0 ≤ v → v ≤ 100000 →
      (admin_referral_start_bonus_input s v).enable_fixed_referral_bonus =
        if 0 < v then "true" else "false") ∧
    (t = "percent_purchase" ∨ t = "fixed_purchase" ∨ t = "fixed_start_referrer" →
      (admin_referral_type_chosen s t).enable_fixed_referral_bonus =
        if t = "fixed_start_referrer" then "true" else "false") := by
  constructor
  · intro h0 h1
    have hin : ¬ (v < 0 ∨ 100000 < v) := by
      push_neg
      exact ⟨h0, h1⟩
    rw [admin_referral_start_bonus_input, if_neg hin]
  · intro ht
    rw [admin_referral_type_chosen, if_pos ht]

/-! ## Promo-code identifier normalization (admin_promo_create_code and
admin_promo_code_auto)

Operator input is modelled as a list of Unicode code points, with the
ASCII case mapping of the promo-code alphabet; upperCp and lowerCp mirror
the str.upper / str.lower calls of the source on that range. -/

/-- ASCII lower-casing of one code point, as str.lower acts on the
promo-code alphabet. -/
def lowerCp (c : Nat) : Nat :=
  if 65 ≤ c ∧ c ≤ 90 then c + 32 else c

/-- ASCII upper-casing of one code point, as str.upper acts on the
promo-code alphabet. -/
def upperCp (c : Nat) : Nat :=
  if 97 ≤ c ∧ c ≤ 122 then c - 32 else c

/-- Lower-casing of a whole entered string. -/
def strLower (s : List Nat) : List Nat := s.map lowerCp

/-- Upper-casing of a whole entered string. -/
def strUpper (s : List Nat) : List Nat := s.map upperCp

/-- Membership in the promo-code alphabet of the pattern at
admin_handlers.py line 3707: an upper-case Latin letter, a digit, an
underscore (code point 95) or a hyphen (code point 45). -/
def promoCodeCp (c : Nat) : Bool :=
  decide ((65 ≤ c ∧ c ≤ 90) ∨ (48 ≤ c ∧ c ≤ 57) ∨ c = 95 ∨ c = 45)

/-- Embeds re.fullmatch of the pattern of upper-case Latin letters,
digits, underscore and hyphen repeated 3 to 32 times (admin_handlers.py
line 3707). -/
def promoCodeMatch (s : List Nat) : Bool :=
  decide (3 ≤ s.length ∧ s.length ≤ 32) && s.all promoCodeCp

/-- Recognizes the auto-generation keyword of admin_promo_create_code
(line 3706): the lower-cased input is the Russian word for auto (code
points 1072 1074 1090 1086) or the Latin word auto. -/
def autoKeyword (raw : List Nat) : Bool :=
  strLower raw = [1072, 1074, 1090, 1086] ∨ strLower raw = [97, 117, 116, 111]

/-- Lower-case hexadecimal digit, the alphabet of uuid4().hex. -/
def lowerHexCp (c : Nat) : Bool :=
  decide ((97 ≤ c ∧ c ≤ 102) ∨ (48 ≤ c ∧ c ≤ 57))

/-- Upper-case hexadecimal digit. -/
def upperHexCp (c : Nat) : Bool :=
  decide ((65 ≤ c ∧ c ≤ 70) ∨ (48 ≤ c ∧ c ≤ 57))

/-- Embeds admin_promo_create_code (admin_handlers.py lines 3698-3715)
together with the generation of admin_promo_code_auto (lines 3662-3681):
an empty (stripped) input is rejected; the auto keyword takes the first
eight characters of the supplied uuid4 hex string upper-cased, any other
input is upper-cased as typed; the candidate is stored exactly when it
matches the pattern, and otherwise nothing is stored. -/
def admin_promo_create_code (raw hexStr : List Nat) : Option (List Nat) :=
  if raw = [] then none
  else
    let code := if autoKeyword raw then strUpper (hexStr.take 8) else strUpper raw
    if promoCodeMatch code then some code else none

/-- Upper-casing fixes every character of the promo-code alphabet. -/
theorem upperCp_of_promoCodeCp (c : Nat) (h : promoCodeCp c = true) :
    upperCp c = c := by
  simp only [promoCodeCp, decide_eq_true_eq] at h
  unfold upperCp
  rw [if_neg]
  omega

/-- Lower-casing factors through upper-casing on single code points. -/
theorem lowerCp_upperCp (c : Nat) : lowerCp (upperCp c) = lowerCp c := by
  unfold lowerCp upperCp
  by_cases h : 97 ≤ c ∧ c ≤ 122
  · rw [if_pos h, if_pos (by omega), if_neg (by omega)]
    omega
  · rw [if_neg h]

/-- Inputs with the same upper-casing have the same lower-casing. -/
theorem strLower_eq_of_strUpper_eq (r1 r2 : List Nat)
    (h : strUpper r1 = strUpper r2) : strLower r1 = strLower r2 := by
  have h1 : strLower (strUpper r1) = strLower (strUpper r2) := by rw [h]
  simpa [strLower, strUpper, List.map_map, Function.comp_def, lowerCp_upperCp] using h1

/-- C8: every stored promo code matches the 3-32 character pattern over
upper-case Latin letters, digits, underscore and hyphen and is fixed by
upper-casing; an input whose upper-casing fails the pattern (and is not
the auto keyword) stores nothing; an auto-generated code is the first
eight characters of the uuid4 hex string upper-cased, eight upper-case
hexadecimal characters; and the identifier is case-insensitive: inputs
with the same upper-casing store the same code. -/
theorem admin_promo_create_code_rules (raw hexStr : List Nat) :
    (∀ code, admin_promo_create_code raw hexStr = some code →
        promoCodeMatch code = true ∧ strUpper code = code) ∧
    (autoKeyword raw = false → promoCodeMatch (strUpper raw) = false →
        admin_promo_create_code raw hexStr = none) ∧
    (hexStr.all lowerHexCp = true → 8 ≤ hexStr.length →
        (strUpper (hexStr.take 8)).length = 8 ∧
        (strUpper (hexStr.take 8)).all upperHexCp = true) ∧
    (∀ raw2, strUpper raw = strUpper raw2 →
        admin_promo_create_code raw hexStr = admin_promo_create_code raw2 hexStr) := by
  refine ⟨?_, ?_, ?_, ?_⟩
  · intro code hcode
    unfold admin_promo_create_code at hcode
    by_cases hraw : raw = []
    · rw [if_pos hraw] at hcode
      exact absurd hcode (by simp)
    · rw [if_neg hraw] at hcode
      set cand := if autoKeyword raw then strUpper (hexStr.take 8) else strUpper raw with hcand
      by_cases hm : promoCodeMatch cand = true
      · simp only [hm, if_pos] at hcode
        have hc : cand = code := by simpa using hcode
        subst hc
        refine ⟨hm, ?_⟩
        have hall : cand.all promoCodeCp = true := by
          have hm2 := hm
          simp only [promoCodeMatch, Bool.and_eq_true] at hm2
          exact hm2.2
        have : ∀ c ∈ cand, upperCp c = c := by
          intro c hc
          exact upperCp_of_promoCodeCp c (by
            have := List.all_eq_true.mp hall c hc
            simpa using this)
        calc strUpper cand = cand.map id := List.map_congr_left (by
              intro c hc
              exact this c hc)
          _ = cand := List.map_id cand
      · rw [if_neg hm] at hcode
        exact absurd hcode (by simp)
  · intro hauto hm
    unfold admin_promo_create_code
    by_cases hraw : raw = []
    · rw [if_pos hraw]
    · rw [if_neg hraw]
      simp only [hauto, Bool.false_eq_true, if_false, hm, if_false]
  · intro hhex hlen
    constructor
    · simp [strUpper, List.length_take]
      omega
    · rw [List.all_eq_true]
      intro c hc
      simp only [strUpper] at hc
      obtain ⟨d, hd, rfl⟩ := List.mem_map.mp hc
      have hdhex : lowerHexCp d = true := by
        have hdmem : d ∈ hexStr := List.mem_of_mem_take hd
        have := List.all_eq_true.mp hhex d hdmem
        simpa using this
      simp only [lowerHexCp, decide_eq_true_eq] at hdhex
      simp only [upperHexCp, upperCp, decide_eq_true_eq]
      by_cases h97 : 97 ≤ d ∧ d ≤ 122
      · rw [if_pos h97]
        omega
      · rw [if_neg h97]
        omega
  · intro raw2 hsame
    unfold admin_promo_create_code
    have hlower := strLower_eq_of_strUpper_eq raw raw2 hsame
    have hkey : autoKeyword raw = autoKeyword raw2 := by
      unfold autoKeyword
      rw [hlower]
    have hlen : raw.length = raw2.length := by
      have h1 := congrArg List.length hsame
      simpa [strUpper] using h1
    have hempty : (raw = []) ↔ (raw2 = []) := by
      rw [← List.length_eq_zero, ← List.length_eq_zero, hlen]
    by_cases hraw : raw = []
    · rw [if_pos hraw, if_pos (hempty.mp hraw)]
    · rw [if_neg hraw, if_neg (fun h => hraw (hempty.mpr h))]
      rw [hkey, hsame]

/-! ## The promo and referral core

The registry, ledger, balance store, reward engine and application
service live in the data layer (shop_bot.data_manager), which is not
among the shown sources; the definitions below are modelled from the
specification, as their doc comments state. -/

/-- Modelled from the spec: the tagged discount variant of section 3 —
Percent(value) or Amount(value), values in roubles or percent as
rationals. -/
inductive Discount where
  | percent (value : ℚ)
  | amount (value : ℚ)
deriving DecidableEq, Repr

/-- Modelled from the spec: the PromoCode row of section 3.  used_total
is a natural number, so the non-negativity of the counter holds by
construction. -/
structure PromoCode where
  code : String
  discount : Discount
  usage_limit_total : Option Nat
  usage_limit_per_user : Option Nat
  used_total : Nat
  valid_from : Option Int
  valid_until : Option Int
  is_active : Bool
deriving DecidableEq, Repr

/-- Modelled from the spec: a quota reservation issued by try_reserve
(section 4.2), tagged committed once commit has persisted its
RedemptionRecord so that release cannot decrement it and commit is
idempotent per token. -/
structure Reservation where
  code : String
  user_id : Nat
  at_time : Int
  committed : Bool
deriving DecidableEq, Repr

/-- Modelled from the spec: the RedemptionRecord row of section 3 — one
row per successful redemption, immutable once written. -/
structure RedemptionRecord where
  code : String
  user_id : Nat
  at_time : Int
deriving DecidableEq, Repr

/-- Modelled from the spec: the BalanceAccount row of section 3 — two
monetary counters per user. -/
structure BalanceAccount where
  main_balance : ℚ
  referral_balance : ℚ
deriving DecidableEq, Repr

/-- Modelled from the spec: the reward type of RewardPolicySettings. -/
inductive RewardType where
  | percent_purchase
  | fixed_purchase
  | fixed_start_referrer
deriving DecidableEq, Repr

/-- Modelled from the spec: the read-only RewardPolicySettings object of
section 3, passed into compute_and_credit. -/
structure RewardPolicySettings where
  reward_type : RewardType
  percentage : ℚ
  fixed_amount : ℚ
  start_bonus : ℚ
deriving DecidableEq, Repr

/-- Modelled from the spec: the persistent state of the core — the
promo-code table (keyed by code), outstanding reservations (keyed by
token), redemption records, the next fresh token, the read-only referral
relationships (referred user to referrer), balance accounts (keyed by
user id, absent row meaning zero balances), processed purchase ids of the
reward engine, and the pairs already paid the one-time start bonus. -/
structure CoreState where
  promos : List PromoCode
  reservations : List (Nat × Reservation)
  records : List RedemptionRecord
  nextToken : Nat
  referrals : List (Nat × Nat)
  balances : List (Nat × BalanceAccount)
  processedPurchases : List Nat
  startBonusPaid : List (Nat × Nat)
deriving DecidableEq, Repr

/-- Modelled from the spec: the error kinds of section 7 that try_reserve
can surface. -/
inductive PromoError where
  | CodeNotFound
  | CodeInactive
  | CodeNotYetValid
  | CodeExpired
  | GlobalLimitExceeded
  | PerUserLimitExceeded
deriving DecidableEq, Repr

/-- Modelled from the spec: the error kinds of registry creation
(section 4.1). -/
inductive CreateError where
  | DuplicateCode
  | InvalidDiscountValue
  | InvalidValidityWindow
deriving DecidableEq, Repr

/-- Modelled from the spec: lookup of a promo code in the registry
(section 4.1 get), first row with the given key. -/
def lookupPromo (st : CoreState) (code : String) : Option PromoCode :=
  st.promos.find? (fun p => p.code == code)

/-- Modelled from the spec: the per-user redemption count of section 4.2
step 4 — how many RedemptionRecords this user already has for the code. -/
def userRedemptionCount (st : CoreState) (code : String) (user : Nat) : Nat :=
  (st.records.filter (fun r => r.code == code && r.user_id == user)).length

/-- Modelled from the spec: the global-quota test of section 4.2 step 3 —
usage_limit_total is set and used_total has reached it. -/
def globalLimitReached (p : PromoCode) : Bool :=
  match p.usage_limit_total with
  | none => false
  | some l => l ≤ p.used_total

/-- Modelled from the spec: the per-user-quota test of section 4.2
step 4. -/
def perUserLimitReached (st : CoreState) (p : PromoCode) (user : Nat) : Bool :=
  match p.usage_limit_per_user with
  | none => false
  | some l => l ≤ userRedemptionCount st p.code user

/-- Modelled from the spec: at_time is before the valid_from bound
(section 4.2 step 2; a missing bound is unconstrained). -/
def notYetValid (p : PromoCode) (t : Int) : Bool :=
  match p.valid_from with
  | none => false
  | some vf => t < vf

/-- Modelled from the spec: at_time is after the valid_until bound
(section 4.2 step 2; a missing bound is unconstrained). -/
def expired (p : PromoCode) (t : Int) : Bool :=
  match p.valid_until with
  | none => false
  | some vu => vu < t

/-- Modelled from the spec: the conditional update of the promo-code row
keyed by the given code, incrementing used_total of the first (and, with
distinct keys, only) matching row. -/
def incrementUsed : List PromoCode → String → List PromoCode
  | [], _ => []
  | p :: ps, code =>
      if p.code == code then { p with used_total := p.used_total + 1 } :: ps
      else p :: incrementUsed ps code

/-- Modelled from the spec: the row update decrementing used_total, used
by release (section 4.2). -/
def decrementUsed : List PromoCode → String → List PromoCode
  | [], _ => []
  | p :: ps, code =>
      if p.code == code then { p with used_total := p.used_total - 1 } :: ps
      else p :: decrementUsed ps code

/-- Modelled from the spec: try_reserve of section 4.2 — load the code,
check activity, validity window and the two quotas, then atomically
increment used_total and issue a fresh reservation token.  The whole
function is one indivisible step of the model (section 5 atomicity
unit). -/
def try_reserve (st : CoreState) (code : String) (user : Nat) (t : Int) :
    CoreState × Except PromoError Nat :=
  match lookupPromo st code with
  | none => (st, Except.error PromoError.CodeNotFound)
  | some p =>
      if p.is_active = false then (st, Except.error PromoError.CodeInactive)
      else if notYetValid p t then (st, Except.error PromoError.CodeNotYetValid)
      else if expired p t then (st, Except.error PromoError.CodeExpired)
      else if globalLimitReached p then (st, Except.error PromoError.GlobalLimitExceeded)
      else if perUserLimitReached st p user then
        (st, Except.error PromoError.PerUserLimitExceeded)
      else
        ({ st with
            promos := incrementUsed st.promos code
            reservations := (st.nextToken, ⟨code, user, t, false⟩) :: st.reservations
            nextToken := st.nextToken + 1 },
         Except.ok st.nextToken)

/-- Modelled from the spec: commit of section 4.2 — persist the
RedemptionRecord of the reservation and mark it committed; idempotent per
token, and a no-op for an unknown token. -/
def commit (st : CoreState) (token : Nat) : CoreState :=
  match st.reservations.find? (fun q => q.fst == token) with
  | none => st
  | some entry =>
      if entry.snd.committed then st
      else
        { st with
            reservations := st.reservations.map (fun q =>
              if q.fst == token then (q.fst, { q.snd with committed := true }) else q)
            records := ⟨entry.snd.code, entry.snd.user_id, entry.snd.at_time⟩ :: st.records }

/-- Modelled from the spec: release of section 4.2 — undo an
uncommitted reservation, decrementing used_total; it must not decrement a
committed reservation and is safe for an unknown token. -/
def release (st : CoreState) (token : Nat) : CoreState :=
  match st.reservations.find? (fun q => q.fst == token) with
  | none => st
  | some entry =>
      if entry.snd.committed then st
      else
        { st with
            reservations := st.reservations.filter (fun q => !(q.fst == token))
            promos := decrementUsed st.promos entry.snd.code }

/-- Modelled from the spec: the discount-value rule of section 3 —
Percent(value) requires 0 < value < 100 and Amount(value) requires
value > 0. -/
def discountValid : Discount → Bool
  | Discount.percent v => decide (0 < v ∧ v < 100)
  | Discount.amount v => decide (0 < v)

/-- Modelled from the spec: the validity-window rule of section 3 — when
both bounds are present, valid_from < valid_until. -/
def windowValid (vf vu : Option Int) : Bool :=
  match vf, vu with
  | some a, some b => decide (a < b)
  | _, _ => true

/-- Modelled from the spec: PromoCodeRegistry.create of section 4.1 —
fails with DuplicateCode, InvalidDiscountValue or InvalidValidityWindow,
otherwise appends a fresh active code with used_total zero. -/
def registry_create (st : CoreState) (code : String) (d : Discount)
    (lt lu : Option Nat) (vf vu : Option Int) :
    CoreState × Except CreateError Unit :=
  if (lookupPromo st code).isSome then (st, Except.error CreateError.DuplicateCode)
  else if discountValid d = false then (st, Except.error CreateError.InvalidDiscountValue)
  else if windowValid vf vu = false then (st, Except.error CreateError.InvalidValidityWindow)
  else
    ({ st with promos := st.promos ++ [⟨code, d, lt, lu, 0, vf, vu, true⟩] },
     Except.ok ())

/-- Modelled from the spec: PromoCodeRegistry.set_active of section 4.1 —
idempotent, no error if already in that state. -/
def set_active (st : CoreState) (code : String) (active : Bool) : CoreState :=
  { st with
      promos := st.promos.map (fun p =>
        if p.code == code then { p with is_active := active } else p) }

/-- Modelled from the spec: the balance kind selector of section 4.4. -/
inductive BalanceKind where
  | main
  | referral
deriving DecidableEq, Repr

/-- Modelled from the spec: the result of BalanceStore.debit. -/
inductive DebitResult where
  | Ok
  | InsufficientBalance
deriving DecidableEq, Repr

/-- Modelled from the spec: BalanceStore.read of section 4.4 — snapshot
of a user's account, zero balances for an absent row. -/
def getBalance (bs : List (Nat × BalanceAccount)) (u : Nat) : BalanceAccount :=
  match bs.find? (fun e => e.fst == u) with
  | none => ⟨0, 0⟩
  | some entry => entry.snd

/-- Balance of the chosen kind in an account. -/
def balOf (a : BalanceAccount) : BalanceKind → ℚ
  | BalanceKind.main => a.main_balance
  | BalanceKind.referral => a.referral_balance

/-- The account with the chosen balance replaced. -/
def withBal (a : BalanceAccount) : BalanceKind → ℚ → BalanceAccount
  | BalanceKind.main, q => { a with main_balance := q }
  | BalanceKind.referral, q => { a with referral_balance := q }

/-- Store a user's account, replacing the first existing row or
prepending a fresh one. -/
def setBalance (bs : List (Nat × BalanceAccount)) (u : Nat) (a : BalanceAccount) :
    List (Nat × BalanceAccount) :=
  if (bs.find? (fun e => e.fst == u)).isSome then
    bs.map (fun e => if e.fst == u then (e.fst, a) else e)
  else (u, a) :: bs

/-- Modelled from the spec: BalanceStore.credit of section 4.4 — requires
amount > 0 (a non-positive amount is refused and changes nothing) and
atomically adds to the chosen balance. -/
def credit (bs : List (Nat × BalanceAccount)) (u : Nat) (amount : ℚ)
    (k : BalanceKind) : List (Nat × BalanceAccount) :=
  if amount ≤ 0 then bs
  else
    let a := getBalance bs u
    setBalance bs u (withBal a k (balOf a k + amount))

/-- Modelled from the spec: BalanceStore.debit of section 4.4 — atomically
checks current ≥ amount and subtracts in one indivisible step; on failure
the balance is unchanged and InsufficientBalance is returned. -/
def debit (bs : List (Nat × BalanceAccount)) (u : Nat) (amount : ℚ)
    (k : BalanceKind) : List (Nat × BalanceAccount) × DebitResult :=
  let a := getBalance bs u
  if amount ≤ balOf a k then
    (setBalance bs u (withBal a k (balOf a k - amount)), DebitResult.Ok)
  else (bs, DebitResult.InsufficientBalance)

/-- Modelled from the spec: the outcome of compute_and_credit
(section 4.3). -/
inductive RewardOutcome where
  | AlreadyProcessed
  | NoReferrer
  | StartBonusAlreadyPaid
  | Credited (referrer : Nat) (amount : ℚ)
deriving DecidableEq, Repr

/-- Modelled from the spec: the reward amount selected by
policy.reward_type (section 4.3). -/
def rewardAmount (policy : RewardPolicySettings) (purchase_amount : ℚ) : ℚ :=
  match policy.reward_type with
  | RewardType.percent_purchase => purchase_amount * policy.percentage / 100
  | RewardType.fixed_purchase => policy.fixed_amount
  | RewardType.fixed_start_referrer => policy.start_bonus

/-- Modelled from the spec: ReferralRewardEngine.compute_and_credit of
section 4.3 — a purchase id already processed is refused before anything
else (the tracked-ids idempotence contract); otherwise the id is
recorded, the referral relationship is looked up (no referrer is not an
error), the amount is selected by the policy, the one-time start bonus is
paid at most once per (referrer, referred) pair, and the referrer's
referral balance is credited. -/
def compute_and_credit (st : CoreState) (purchase_id referred : Nat)
    (purchase_amount : ℚ) (policy : RewardPolicySettings) :
    CoreState × RewardOutcome :=
  if st.processedPurchases.contains purchase_id then
    (st, RewardOutcome.AlreadyProcessed)
  else
    let st1 := { st with processedPurchases := purchase_id :: st.processedPurchases }
    match st.referrals.find? (fun e => e.fst == referred) with
    | none => (st1, RewardOutcome.NoReferrer)
    | some entry =>
        let referrer := entry.snd
        match policy.reward_type with
        | RewardType.fixed_start_referrer =>
            if st.startBonusPaid.contains (referrer, referred) then
              (st1, RewardOutcome.StartBonusAlreadyPaid)
            else
              ({ st1 with
                  startBonusPaid := (referrer, referred) :: st1.startBonusPaid
                  balances := credit st1.balances referrer policy.start_bonus
                    BalanceKind.referral },
               RewardOutcome.Credited referrer policy.start_bonus)
        | _ =>
            ({ st1 with
                balances := credit st1.balances referrer
                  (rewardAmount policy purchase_amount) BalanceKind.referral },
             RewardOutcome.Credited referrer (rewardAmount policy purchase_amount))

/-- Modelled from the spec: the discount applied to a price
(section 4.5) — a percent code takes that share of the price, an amount
code the fixed sum. -/
def discount_amount (d : Discount) (price : ℚ) : ℚ :=
  match d with
  | Discount.percent v => price * v / 100
  | Discount.amount v => v

/-- Modelled from the spec: PromoApplicationService.validate_and_reserve
of section 4.5 — try_reserve, then the discounted price clamped at
zero. -/
def validate_and_reserve (st : CoreState) (code : String) (user : Nat)
    (price : ℚ) (t : Int) : CoreState × Except PromoError (Nat × ℚ) :=
  match lookupPromo st code with
  | none => (st, Except.error PromoError.CodeNotFound)
  | some p =>
      match try_reserve st code user t with
      | (st1, Except.ok tok) =>
          (st1, Except.ok (tok, max 0 (price - discount_amount p.discount price)))
      | (st1, Except.error e) => (st1, Except.error e)

/-- Modelled from the spec: PromoApplicationService.on_payment_success of
section 4.5 — commit the reservation, then trigger the reward engine. -/
def on_payment_success (st : CoreState) (token purchase_id referred : Nat)
    (purchase_amount : ℚ) (policy : RewardPolicySettings) :
    CoreState × RewardOutcome :=
  compute_and_credit (commit st token) purchase_id referred purchase_amount policy

/-- Modelled from the spec: PromoApplicationService.on_payment_failure of
section 4.5 — release the reservation. -/
def on_payment_failure (st : CoreState) (token : Nat) : CoreState :=
  release st token

/-! ## Balance store: failed debits leave the balance unchanged -/

/-- C4: a debit of more than the current balance of the chosen kind
returns InsufficientBalance and leaves the whole store unchanged. -/
theorem debit_insufficient (bs : List (Nat × BalanceAccount)) (u : Nat)
    (amount : ℚ) (k : BalanceKind)
    (h : balOf (getBalance bs u) k < amount) :
    debit bs u amount k = (bs, DebitResult.InsufficientBalance) := by
  unfold debit
  rw [if_neg (not_le.mpr h)]

/-- A concrete run of debit_insufficient: user 7 holds a main balance of
30; a debit of 50 fails with InsufficientBalance and the store keeps the
balance at 30. -/
theorem debit_insufficient_witness :
    balOf (getBalance [(7, ⟨30, 0⟩)] 7) BalanceKind.main < 50 ∧
    debit [(7, (⟨30, 0⟩ : BalanceAccount))] 7 50 BalanceKind.main =
      ([(7, ⟨30, 0⟩)], DebitResult.InsufficientBalance) :=
  ⟨by norm_num [balOf, getBalance, List.find?],
   debit_insufficient [(7, ⟨30, 0⟩)] 7 50 BalanceKind.main
     (by norm_num [balOf, getBalance, List.find?])⟩

/-! ## Registry: set_active is idempotent -/

/-- C9: two successive identical set_active calls have the same effect as
one, and a set_active call whose requested state already holds for the
code succeeds and leaves the state unchanged. -/
theorem set_active_idempotent (st : CoreState) (code : String) (a : Bool) :
    set_active (set_active st code a) code a = set_active st code a ∧
    ((∀ p ∈ st.promos, p.code = code → p.is_active = a) →
      set_active st code a = st) := by
  constructor
  · unfold set_active
    simp only [List.map_map]
    congr 1
    apply List.map_congr_left
    intro p _
    by_cases h : (p.code == code) = true
    · simp only [Function.comp_def, h, if_true, if_pos h]
    · simp only [Function.comp_def, h, if_neg h, Bool.false_eq_true, if_false]
  · intro h
    unfold set_active
    have hmap : st.promos.map (fun p =>
        if p.code == code then { p with is_active := a } else p) = st.promos := by
      conv_rhs => rw [← List.map_id st.promos]
      apply List.map_congr_left
      intro p hp
      by_cases hc : (p.code == code) = true
      · have hcode : p.code = code := by simpa using hc
        have ha := h p hp hcode
        rw [if_pos hc, id_eq, ← ha]
      · rw [if_neg hc, id_eq]
    rw [hmap]

/-! ## Service: the discounted price is clamped at zero -/

/-- C5: whenever validate_and_reserve succeeds, the discounted price it
returns is the price minus the discount amount of the code, clamped at
zero. -/
theorem validate_and_reserve_discounted_price (st : CoreState) (code : String)
    (user : Nat) (price : ℚ) (t : Int) (p : PromoCode) (tok : Nat) (dp : ℚ)
    (hp : lookupPromo st code = some p)
    (h : (validate_and_reserve st code user price t).snd = Except.ok (tok, dp)) :
    dp = max 0 (price - discount_amount p.discount price) := by
  unfold validate_and_reserve at h
  rw [hp] at h
  rcases htr : try_reserve st code user t with ⟨st1, r⟩
  rw [htr] at h
  cases r with
  | ok tk =>
      simp only [Except.ok.injEq, Prod.mk.injEq] at h
      exact h.2.symm
  | error e => simp at h

/-- Demonstration registry holding a Percent(10), an Amount(15) and an
Amount(500) code, all active and unconstrained. -/
def demoPromoState : CoreState :=
  { promos :=
      [⟨"P10", Discount.percent 10, none, none, 0, none, none, true⟩,
       ⟨"A15", Discount.amount 15, none, none, 0, none, none, true⟩,
       ⟨"A500", Discount.amount 500, none, none, 0, none, none, true⟩]
    reservations := []
    records := []
    nextToken := 0
    referrals := []
    balances := []
    processedPurchases := []
    startBonusPaid := [] }

/-- Concrete runs of validate_and_reserve_discounted_price: on price 100
a Percent(10) code yields 90, an Amount(15) code yields 85, and an
Amount(500) code yields 0, never a negative price. -/
theorem validate_and_reserve_discount_witness :
    (90 : ℚ) = max 0 (100 - discount_amount (Discount.percent 10) 100) ∧
    (85 : ℚ) = max 0 (100 - discount_amount (Discount.amount 15) 100) ∧
    (0 : ℚ) = max 0 (100 - discount_amount (Discount.amount 500) 100) :=
  ⟨validate_and_reserve_discounted_price demoPromoState "P10" 1 100 0
      ⟨"P10", Discount.percent 10, none, none, 0, none, none, true⟩ 0 90
      (by simp [lookupPromo, demoPromoState, List.find?])
      (by simp [validate_and_reserve, try_reserve, lookupPromo, demoPromoState,
                List.find?, notYetValid, expired, globalLimitReached,
                perUserLimitReached, discount_amount]
          norm_num),
   validate_and_reserve_discounted_price demoPromoState "A15" 1 100 0
      ⟨"A15", Discount.amount 15, none, none, 0, none, none, true⟩ 0 85
      (by simp [lookupPromo, demoPromoState, List.find?])
      (by simp [validate_and_reserve, try_reserve, lookupPromo, demoPromoState,
                List.find?, notYetValid, expired, globalLimitReached,
                perUserLimitReached, discount_amount]
          norm_num),
   validate_and_reserve_discounted_price demoPromoState "A500" 1 100 0
      ⟨"A500", Discount.amount 500, none, none, 0, none, none, true⟩ 0 0
      (by simp [lookupPromo, demoPromoState, List.find?])
      (by simp [validate_and_reserve, try_reserve, lookupPromo, demoPromoState,
                List.find?, notYetValid, expired, globalLimitReached,
                perUserLimitReached, discount_amount]
          norm_num)⟩

/-! ## Reward idempotence: the same purchase id never credits twice -/

/-- After commit, any reservation still found under the token is marked
committed. -/
theorem commit_find (st : CoreState) (token : Nat) :
    ∀ entry, (commit st token).reservations.find? (fun q => q.fst == token) =
        some entry → entry.snd.committed = true := by
  intro entry hentry
  unfold commit at hentry
  cases hfind : st.reservations.find? (fun q => q.fst == token) with
  | none =>
      rw [hfind] at hentry
      simp only at hentry
      rw [hfind] at hentry
      cases hentry
  | some e =>
      rw [hfind] at hentry
      simp only at hentry
      by_cases hcom : e.snd.committed = true
      · rw [if_pos hcom] at hentry
        rw [hfind] at hentry
        have he : e = entry := by simpa using hentry
        rw [← he]
        exact hcom
      · rw [if_neg hcom] at hentry
        simp only at hentry
        rw [List.find?_map] at hentry
        have hpf : ((fun q : Nat × Reservation => q.fst == token) ∘
            (fun q : Nat × Reservation =>
              if q.fst == token then (q.fst, { q.snd with committed := true }) else q)) =
            (fun q : Nat × Reservation => q.fst == token) := by
          funext q
          show ((if q.fst == token then (q.fst, { q.snd with committed := true })
              else q).fst == token) = (q.fst == token)
          by_cases hq : (q.fst == token) = true
          · rw [if_pos hq]
          · rw [if_neg hq]
        rw [hpf, hfind] at hentry
        have hfst : (e.fst == token) = true := @List.find?_some (Nat × Reservation)
          (fun q => q.fst == token) e st.reservations hfind
        have hentry2 : some ((fun q : Nat × Reservation =>
            if q.fst == token then (q.fst, { q.snd with committed := true }) else q) e) =
            some entry := hentry
        have hE : ((fun q : Nat × Reservation =>
            if q.fst == token then (q.fst, { q.snd with committed := true }) else q) e) =
            entry := Option.some.inj hentry2
        rw [← hE]
        dsimp only
        rw [if_pos hfst]

/-- Commit is a no-op when every reservation found under the token is
already committed (in particular for an unknown token). -/
theorem commit_noop (st : CoreState) (token : Nat)
    (h : ∀ entry, st.reservations.find? (fun q => q.fst == token) = some entry →
        entry.snd.committed = true) :
    commit st token = st := by
  unfold commit
  cases hfind : st.reservations.find? (fun q => q.fst == token) with
  | none => simp only
  | some e =>
      simp only
      rw [if_pos (h e hfind)]

/-- The reward engine never touches the reservation table. -/
theorem compute_and_credit_reservations (st : CoreState) (pid referred : Nat)
    (amt : ℚ) (policy : RewardPolicySettings) :
    (compute_and_credit st pid referred amt policy).fst.reservations =
      st.reservations := by
  unfold compute_and_credit
  by_cases h1 : st.processedPurchases.contains pid = true
  · rw [if_pos h1]
  · rw [if_neg h1]
    cases hfind : st.referrals.find? (fun e => e.fst == referred) with
    | none => rfl
    | some entry =>
        cases hrt : policy.reward_type with
        | percent_purchase => rfl
        | fixed_purchase => rfl
        | fixed_start_referrer =>
            dsimp only
            by_cases hb : st.startBonusPaid.contains (entry.snd, referred) = true
            · rw [if_pos hb]
            · rw [if_neg hb]

/-- After the reward engine runs, the purchase id is tracked as
processed. -/
theorem compute_and_credit_processed (st : CoreState) (pid referred : Nat)
    (amt : ℚ) (policy : RewardPolicySettings) :
    ((compute_and_credit st pid referred amt policy).fst).processedPurchases.contains
      pid = true := by
  unfold compute_and_credit
  by_cases hc : st.processedPurchases.contains pid = true
  · rw [if_pos hc]
    exact hc
  · rw [if_neg hc]
    cases hfind : st.referrals.find? (fun e => e.fst == referred) with
    | none => simp
    | some entry =>
        cases hrt : policy.reward_type with
        | percent_purchase => simp
        | fixed_purchase => simp
        | fixed_start_referrer =>
            dsimp only
            by_cases hb : st.startBonusPaid.contains (entry.snd, referred) = true
            · rw [if_pos hb]
              simp
            · rw [if_neg hb]
              simp

/-- A purchase id already tracked as processed is refused without any
state change. -/
theorem compute_and_credit_already (st : CoreState) (pid referred : Nat)
    (amt : ℚ) (policy : RewardPolicySettings)
    (h : st.processedPurchases.contains pid = true) :
    compute_and_credit st pid referred amt policy =
      (st, RewardOutcome.AlreadyProcessed) := by
  unfold compute_and_credit
  rw [if_pos h]

/-- C3: on_payment_success is idempotent per purchase id — repeating the
call with the same purchase id leaves the state exactly as after the
first call; in particular no referrer's referral balance receives a
second credit. -/
theorem on_payment_success_idempotent (st : CoreState) (token pid referred : Nat)
    (amt : ℚ) (policy : RewardPolicySettings) :
    (on_payment_success (on_payment_success st token pid referred amt policy).fst
        token pid referred amt policy).fst =
      (on_payment_success st token pid referred amt policy).fst ∧
    ∀ u, (getBalance ((on_payment_success
        (on_payment_success st token pid referred amt policy).fst
        token pid referred amt policy).fst).balances u).referral_balance =
      (getBalance ((on_payment_success st token pid referred amt
        policy).fst).balances u).referral_balance := by
  set st1 := (on_payment_success st token pid referred amt policy).fst with hst1
  have hres : st1.reservations = (commit st token).reservations := by
    rw [hst1]
    unfold on_payment_success
    exact compute_and_credit_reservations _ _ _ _ _
  have hcommit2 : commit st1 token = st1 := by
    apply commit_noop
    intro entry hentry
    rw [hres] at hentry
    exact commit_find st token entry hentry
  have hproc : st1.processedPurchases.contains pid = true := by
    rw [hst1]
    unfold on_payment_success
    exact compute_and_credit_processed _ _ _ _ _
  have hmain : (on_payment_success st1 token pid referred amt policy).fst = st1 := by
    unfold on_payment_success
    rw [hcommit2, compute_and_credit_already st1 pid referred amt policy hproc]
  exact ⟨hmain, fun u => by rw [hmain]⟩

/-! ## Reachability: used_total never exceeds usage_limit_total -/

/-- Modelled from the spec: the operations reachable from outside the
core (sections 4.1 to 4.5 and 6) — registry creation and toggling, the
ledger triple, the orchestrating service calls and the balance
operations. -/
inductive Op where
  | create (code : String) (d : Discount) (lt lu : Option Nat) (vf vu : Option Int)
  | setActive (code : String) (active : Bool)
  | tryReserve (code : String) (user : Nat) (t : Int)
  | commitRes (token : Nat)
  | releaseRes (token : Nat)
  | validateAndReserve (code : String) (user : Nat) (price : ℚ) (t : Int)
  | paymentSuccess (token purchase referred : Nat) (amount : ℚ)
      (policy : RewardPolicySettings)
  | paymentFailure (token : Nat)
  | creditBal (user : Nat) (amount : ℚ) (k : BalanceKind)
  | debitBal (user : Nat) (amount : ℚ) (k : BalanceKind)

/-- Modelled from the spec: one externally reachable operation applied to
the persistent state (the returned value is dropped, the state kept). -/
def applyOp (st : CoreState) : Op → CoreState
  | Op.create code d lt lu vf vu => (registry_create st code d lt lu vf vu).fst
  | Op.setActive code a => set_active st code a
  | Op.tryReserve code u t => (try_reserve st code u t).fst
  | Op.commitRes tok => commit st tok
  | Op.releaseRes tok => release st tok
  | Op.validateAndReserve code u price t => (validate_and_reserve st code u price t).fst
  | Op.paymentSuccess tok pid referred amt pol =>
      (on_payment_success st tok pid referred amt pol).fst
  | Op.paymentFailure tok => on_payment_failure st tok
  | Op.creditBal u a k => { st with balances := credit st.balances u a k }
  | Op.debitBal u a k => { st with balances := (debit st.balances u a k).fst }

/-- The empty initial store. -/
def initState : CoreState := ⟨[], [], [], 0, [], [], [], []⟩

/-- The state after a sequence of operations starting from the empty
store. -/
def runOps (ops : List Op) : CoreState := ops.foldl applyOp initState

/-- The quota invariant of section 8: every promo code with a total usage
limit keeps used_total within it (used_total is a natural number, so the
counter is non-negative by construction). -/
def UsedWithinLimit (st : CoreState) : Prop :=
  ∀ p ∈ st.promos, ∀ l, p.usage_limit_total = some l → p.used_total ≤ l

/-- The invariant depends only on the promo table. -/
theorem usedWithin_promos (st1 st2 : CoreState) (hp : st1.promos = st2.promos)
    (h : UsedWithinLimit st2) : UsedWithinLimit st1 := by
  intro p hmem l hl
  rw [hp] at hmem
  exact h p hmem l hl

/-- Commit never touches the promo table. -/
theorem commit_promos (st : CoreState) (token : Nat) :
    (commit st token).promos = st.promos := by
  unfold commit
  cases hfind : st.reservations.find? (fun q => q.fst == token) with
  | none => rfl
  | some e =>
      dsimp only
      by_cases hcom : e.snd.committed = true
      · rw [if_pos hcom]
      · rw [if_neg hcom]

/-- The reward engine never touches the promo table. -/
theorem compute_and_credit_promos (st : CoreState) (pid referred : Nat)
    (amt : ℚ) (policy : RewardPolicySettings) :
    (compute_and_credit st pid referred amt policy).fst.promos = st.promos := by
  unfold compute_and_credit
  by_cases h1 : st.processedPurchases.contains pid = true
  · rw [if_pos h1]
  · rw [if_neg h1]
    cases hfind : st.referrals.find? (fun e => e.fst == referred) with
    | none => rfl
    | some entry =>
        cases hrt : policy.reward_type with
        | percent_purchase => rfl
        | fixed_purchase => rfl
        | fixed_start_referrer =>
            dsimp only
            by_cases hb : st.startBonusPaid.contains (entry.snd, referred) = true
            · rw [if_pos hb]
            · rw [if_neg hb]

/-- The promo table after on_payment_success is unchanged. -/
theorem on_payment_success_promos (st : CoreState) (tok pid referred : Nat)
    (amt : ℚ) (pol : RewardPolicySettings) :
    (on_payment_success st tok pid referred amt pol).fst.promos = st.promos := by
  unfold on_payment_success
  rw [compute_and_credit_promos, commit_promos]

/-- The promo table after registry_create is unchanged or extended with
the fresh code at counter zero. -/
theorem registry_create_promos (st : CoreState) (code : String) (d : Discount)
    (lt lu : Option Nat) (vf vu : Option Int) :
    (registry_create st code d lt lu vf vu).fst.promos = st.promos ∨
    (registry_create st code d lt lu vf vu).fst.promos =
      st.promos ++ [⟨code, d, lt, lu, 0, vf, vu, true⟩] := by
  unfold registry_create
  by_cases h1 : (lookupPromo st code).isSome = true
  · rw [if_pos h1]
    left
    rfl
  · rw [if_neg h1]
    by_cases h2 : discountValid d = false
    · rw [if_pos h2]
      left
      rfl
    · rw [if_neg h2]
      by_cases h3 : windowValid vf vu = false
      · rw [if_pos h3]
        left
        rfl
      · rw [if_neg h3]
        right
        rfl

/-- The promo table after try_reserve is unchanged, or the guarded
increment of a looked-up code whose global quota was not yet reached. -/
theorem try_reserve_promos (st : CoreState) (code : String) (u : Nat) (t : Int) :
    (try_reserve st code u t).fst.promos = st.promos ∨
    ∃ p, lookupPromo st code = some p ∧ globalLimitReached p = false ∧
      (try_reserve st code u t).fst.promos = incrementUsed st.promos code := by
  unfold try_reserve
  cases hp : lookupPromo st code with
  | none => left; rfl
  | some p =>
      dsimp only
      by_cases h1 : p.is_active = false
      · rw [if_pos h1]
        left
        rfl
      · rw [if_neg h1]
        by_cases h2 : notYetValid p t = true
        · rw [if_pos h2]
          left
          rfl
        · rw [if_neg h2]
          by_cases h3 : expired p t = true
          · rw [if_pos h3]
            left
            rfl
          · rw [if_neg h3]
            by_cases h4 : globalLimitReached p = true
            · rw [if_pos h4]
              left
              rfl
            · rw [if_neg h4]
              by_cases h5 : perUserLimitReached st p u = true
              · rw [if_pos h5]
                left
                rfl
              · rw [if_neg h5]
                right
                exact ⟨p, rfl, by simpa using h4, rfl⟩

/-- The state after validate_and_reserve is the pre-state or the
try_reserve state. -/
theorem validate_and_reserve_fst (st : CoreState) (code : String) (u : Nat)
    (price : ℚ) (t : Int) :
    (validate_and_reserve st code u price t).fst = st ∨
    (validate_and_reserve st code u price t).fst = (try_reserve st code u t).fst := by
  unfold validate_and_reserve
  cases hp : lookupPromo st code with
  | none => left; rfl
  | some p =>
      dsimp only
      rcases htr : try_reserve st code u t with ⟨st1, r⟩
      cases r with
      | ok tk =>
          right
          rfl
      | error e =>
          right
          rfl

/-- The promo table after release is unchanged or a guarded decrement. -/
theorem release_promos (st : CoreState) (token : Nat) :
    (release st token).promos = st.promos ∨
    ∃ c, (release st token).promos = decrementUsed st.promos c := by
  unfold release
  cases hfind : st.reservations.find? (fun q => q.fst == token) with
  | none => left; rfl
  | some e =>
      dsimp only
      by_cases hcom : e.snd.committed = true
      · rw [if_pos hcom]
        left
        rfl
      · rw [if_neg hcom]
        right
        exact ⟨e.snd.code, rfl⟩

/-- A guarded increment of the first row with the given key preserves the
quota invariant: the guard says that row's quota was not yet reached. -/
theorem usedWithin_incrementUsed : ∀ (promos : List PromoCode) (code : String)
    (p : PromoCode),
    promos.find? (fun q => q.code == code) = some p →
    globalLimitReached p = false →
    (∀ q ∈ promos, ∀ l, q.usage_limit_total = some l → q.used_total ≤ l) →
    ∀ q ∈ incrementUsed promos code, ∀ l, q.usage_limit_total = some l →
      q.used_total ≤ l := by
  intro promos
  induction promos with
  | nil =>
      intro code p hfind
      simp at hfind
  | cons head tail ih =>
      intro code p hfind hguard hinv q hq l hl
      by_cases hh : (head.code == code) = true
      · rw [@List.find?_cons_of_pos PromoCode (fun q => q.code == code)
            head tail hh] at hfind
        have hp : head = p := Option.some.inj hfind
        unfold incrementUsed at hq
        rw [if_pos hh] at hq
        rcases List.mem_cons.mp hq with hq | hq
        · subst hq
          have hl2 : p.usage_limit_total = some l := by rw [← hp]; exact hl
          unfold globalLimitReached at hguard
          rw [hl2] at hguard
          simp only [decide_eq_false_iff_not] at hguard
          show head.used_total + 1 ≤ l
          rw [hp]
          omega
        · exact hinv q (List.mem_cons_of_mem _ hq) l hl
      · rw [@List.find?_cons_of_neg PromoCode (fun q => q.code == code)
            head tail hh] at hfind
        unfold incrementUsed at hq
        rw [if_neg hh] at hq
        rcases List.mem_cons.mp hq with hq | hq
        · subst hq
          exact hinv q (List.mem_cons_self _ _) l hl
        · exact ih code p hfind hguard
            (fun r hr l2 hl2 => hinv r (List.mem_cons_of_mem _ hr) l2 hl2) q hq l hl

/-- A decrement of the first row with the given key preserves the quota
invariant: the counter only shrinks. -/
theorem usedWithin_decrementUsed : ∀ (promos : List PromoCode) (code : String),
    (∀ p ∈ promos, ∀ l, p.usage_limit_total = some l → p.used_total ≤ l) →
    ∀ q ∈ decrementUsed promos code, ∀ l, q.usage_limit_total = some l →
      q.used_total ≤ l := by
  intro promos
  induction promos with
  | nil =>
      intro code hinv q hq
      simp [decrementUsed] at hq
  | cons head tail ih =>
      intro code hinv q hq l hl
      unfold decrementUsed at hq
      by_cases hh : (head.code == code) = true
      · rw [if_pos hh] at hq
        rcases List.mem_cons.mp hq with hq | hq
        · subst hq
          have h0 := hinv head (List.mem_cons_self _ _) l hl
          show head.used_total - 1 ≤ l
          omega
        · exact hinv q (List.mem_cons_of_mem _ hq) l hl
      · rw [if_neg hh] at hq
        rcases List.mem_cons.mp hq with hq | hq
        · subst hq
          exact hinv q (List.mem_cons_self _ _) l hl
        · exact ih code
            (fun r hr l2 hl2 => hinv r (List.mem_cons_of_mem _ hr) l2 hl2) q hq l hl

/-- The quota invariant is preserved by try_reserve. -/
theorem usedWithin_try_reserve (st : CoreState) (code : String) (u : Nat)
    (t : Int) (h : UsedWithinLimit st) :
    UsedWithinLimit (try_reserve st code u t).fst := by
  rcases try_reserve_promos st code u t with hc | ⟨p, hp, hg, hc⟩
  · intro q hq l hl
    rw [hc] at hq
    exact h q hq l hl
  · intro q hq l hl
    rw [hc] at hq
    exact usedWithin_incrementUsed st.promos code p hp hg h q hq l hl

/-- Every externally reachable operation preserves the quota invariant. -/
theorem usedWithin_applyOp (st : CoreState) (op : Op) (h : UsedWithinLimit st) :
    UsedWithinLimit (applyOp st op) := by
  cases op with
  | create code d lt lu vf vu =>
      show UsedWithinLimit (registry_create st code d lt lu vf vu).fst
      rcases registry_create_promos st code d lt lu vf vu with hc | hc
      · exact usedWithin_promos _ _ hc h
      · intro q hq l hl
        rw [hc] at hq
        rcases List.mem_append.mp hq with hq | hq
        · exact h q hq l hl
        · have hq2 : q = ⟨code, d, lt, lu, 0, vf, vu, true⟩ := by simpa using hq
          subst hq2
          exact Nat.zero_le l
  | setActive code a =>
      show UsedWithinLimit (set_active st code a)
      intro q hq l hl
      unfold set_active at hq
      simp only at hq
      obtain ⟨r, hr, hrq⟩ := List.mem_map.mp hq
      by_cases hc : (r.code == code) = true
      · rw [if_pos hc] at hrq
        subst hrq
        exact h r hr l hl
      · rw [if_neg hc] at hrq
        subst hrq
        exact h r hr l hl
  | tryReserve code u t => exact usedWithin_try_reserve st code u t h
  | commitRes tok => exact usedWithin_promos _ _ (commit_promos st tok) h
  | releaseRes tok =>
      show UsedWithinLimit (release st tok)
      rcases release_promos st tok with hc | ⟨c, hc⟩
      · exact usedWithin_promos _ _ hc h
      · intro q hq l hl
        rw [hc] at hq
        exact usedWithin_decrementUsed st.promos c h q hq l hl
  | validateAndReserve code u price t =>
      show UsedWithinLimit (validate_and_reserve st code u price t).fst
      rcases validate_and_reserve_fst st code u price t with hc | hc
      · rw [hc]
        exact h
      · rw [hc]
        exact usedWithin_try_reserve st code u t h
  | paymentSuccess tok pid referred amt pol =>
      exact usedWithin_promos _ _ (on_payment_success_promos st tok pid referred amt pol) h
  | paymentFailure tok =>
      show UsedWithinLimit (on_payment_failure st tok)
      rcases release_promos st tok with hc | ⟨c, hc⟩
      · exact usedWithin_promos _ _ hc h
      · intro q hq l hl
        rw [show (on_payment_failure st tok).promos = decrementUsed st.promos c
            from hc] at hq
        exact usedWithin_decrementUsed st.promos c h q hq l hl
  | creditBal u a k => exact usedWithin_promos _ _ rfl h
  | debitBal u a k => exact usedWithin_promos _ _ rfl h

/-- Folding any operation sequence over an invariant state keeps the
invariant. -/
theorem usedWithin_foldl (ops : List Op) : ∀ st : CoreState, UsedWithinLimit st →
    UsedWithinLimit (ops.foldl applyOp st) := by
  induction ops with
  | nil =>
      intro st h
      simpa using h
  | cons op rest ih =>
      intro st h
      rw [List.foldl_cons]
      exact ih _ (usedWithin_applyOp st op h)

/-- C1: in every state reachable from the empty store through any
sequence of registry, ledger and service operations, every promo code
with usage_limit_total set keeps used_total at most usage_limit_total
(and used_total, a natural number, is non-negative by construction). -/
theorem used_total_never_exceeds_limit (ops : List Op) :
    UsedWithinLimit (runOps ops) := by
  apply usedWithin_foldl
  intro p hp
  simp [initState] at hp

/-! ## Concurrency: one success out of fifty attempts on a one-shot code

Section 5 makes the quota check-and-increment of try_reserve one
indivisible operation per code, so concurrent attempts interleave as some
sequential order of atomic try_reserve calls; runReserves runs one such
order and the theorem quantifies over every list of callers. -/

/-- One interleaving of try_reserve calls against a fixed code: each call
supplies a user id and a time, and the outcomes are collected in order. -/
def runReserves (code : String) : List (Nat × Int) → CoreState →
    CoreState × List (Except PromoError Nat)
  | [], st => (st, [])
  | (u, t) :: rest, st =>
      let step := try_reserve st code u t
      let next := runReserves code rest step.fst
      (next.fst, step.snd :: next.snd)

/-- Successful outcomes among the collected results. -/
def isOkResult : Except PromoError Nat → Bool
  | Except.ok _ => true
  | Except.error _ => false

/-- GlobalLimitExceeded outcomes among the collected results. -/
def isGlobalExceeded : Except PromoError Nat → Bool
  | Except.error PromoError.GlobalLimitExceeded => true
  | _ => false

/-- Number of successful reservations in a result list. -/
def countOk (rs : List (Except PromoError Nat)) : Nat :=
  (rs.filter isOkResult).length

/-- Number of GlobalLimitExceeded rejections in a result list. -/
def countGlobal (rs : List (Except PromoError Nat)) : Nat :=
  (rs.filter isGlobalExceeded).length

/-- On an active, window-free code whose total quota is exhausted,
try_reserve fails with GlobalLimitExceeded and leaves the state
unchanged. -/
theorem try_reserve_saturated (st : CoreState) (code : String) (u : Nat)
    (t : Int) (p : PromoCode) (l : Nat)
    (hp : lookupPromo st code = some p) (hact : p.is_active = true)
    (hvf : p.valid_from = none) (hvu : p.valid_until = none)
    (hlim : p.usage_limit_total = some l) (hused : l ≤ p.used_total) :
    try_reserve st code u t = (st, Except.error PromoError.GlobalLimitExceeded) := by
  have h2 : notYetValid p t = false := by
    unfold notYetValid
    rw [hvf]
  have h3 : expired p t = false := by
    unfold expired
    rw [hvu]
  have h4 : globalLimitReached p = true := by
    unfold globalLimitReached
    rw [hlim]
    simpa using hused
  unfold try_reserve
  rw [hp]
  dsimp only
  rw [if_neg (by rw [hact]; simp : ¬ p.is_active = false)]
  rw [if_neg (by rw [h2]; simp : ¬ notYetValid p t = true)]
  rw [if_neg (by rw [h3]; simp : ¬ expired p t = true)]
  rw [if_pos h4]

/-- On an active, window-free code with remaining global quota and no
per-user limit, try_reserve succeeds, incrementing the counter and
issuing the next token. -/
theorem try_reserve_fresh (st : CoreState) (code : String) (u : Nat) (t : Int)
    (p : PromoCode)
    (hp : lookupPromo st code = some p) (hact : p.is_active = true)
    (hvf : p.valid_from = none) (hvu : p.valid_until = none)
    (hg : globalLimitReached p = false) (hpu : p.usage_limit_per_user = none) :
    try_reserve st code u t =
      ({ st with
          promos := incrementUsed st.promos code
          reservations := (st.nextToken, ⟨code, u, t, false⟩) :: st.reservations
          nextToken := st.nextToken + 1 },
       Except.ok st.nextToken) := by
  have h2 : notYetValid p t = false := by
    unfold notYetValid
    rw [hvf]
  have h3 : expired p t = false := by
    unfold expired
    rw [hvu]
  have h5 : perUserLimitReached st p u = false := by
    unfold perUserLimitReached
    rw [hpu]
  unfold try_reserve
  rw [hp]
  dsimp only
  rw [if_neg (by rw [hact]; simp : ¬ p.is_active = false)]
  rw [if_neg (by rw [h2]; simp : ¬ notYetValid p t = true)]
  rw [if_neg (by rw [h3]; simp : ¬ expired p t = true)]
  rw [if_neg (by rw [hg]; simp : ¬ globalLimitReached p = true)]
  rw [if_neg (by rw [h5]; simp : ¬ perUserLimitReached st p u = true)]

/-- After the guarded increment, the looked-up row carries the bumped
counter. -/
theorem lookupPromo_incrementUsed : ∀ (promos : List PromoCode) (code : String)
    (p : PromoCode),
    promos.find? (fun q => q.code == code) = some p →
    (incrementUsed promos code).find? (fun q => q.code == code) =
      some { p with used_total := p.used_total + 1 } := by
  intro promos
  induction promos with
  | nil =>
      intro code p h
      simp at h
  | cons head tail ih =>
      intro code p hfind
      by_cases hh : (head.code == code) = true
      · rw [@List.find?_cons_of_pos PromoCode (fun q => q.code == code)
            head tail hh] at hfind
        have hp : head = p := Option.some.inj hfind
        unfold incrementUsed
        rw [if_pos hh]
        rw [@List.find?_cons_of_pos PromoCode (fun q => q.code == code)
            { head with used_total := head.used_total + 1 } tail hh]
        rw [hp]
      · rw [@List.find?_cons_of_neg PromoCode (fun q => q.code == code)
            head tail hh] at hfind
        unfold incrementUsed
        rw [if_neg hh]
        rw [@List.find?_cons_of_neg PromoCode (fun q => q.code == code)
            head (incrementUsed tail code) hh]
        exact ih code p hfind

/-- A run against an exhausted code rejects every call with
GlobalLimitExceeded and never changes the state. -/
theorem runReserves_saturated (code : String) : ∀ (calls : List (Nat × Int))
    (st : CoreState) (p : PromoCode) (l : Nat),
    lookupPromo st code = some p → p.is_active = true →
    p.valid_from = none → p.valid_until = none →
    p.usage_limit_total = some l → l ≤ p.used_total →
    runReserves code calls st =
      (st, calls.map (fun _ => Except.error PromoError.GlobalLimitExceeded)) := by
  intro calls
  induction calls with
  | nil =>
      intro st p l hp hact hvf hvu hlim hused
      rfl
  | cons c rest ih =>
      intro st p l hp hact hvf hvu hlim hused
      obtain ⟨u, t⟩ := c
      unfold runReserves
      rw [try_reserve_saturated st code u t p l hp hact hvf hvu hlim hused]
      dsimp only
      rw [ih st p l hp hact hvf hvu hlim hused]
      simp

/-- C2: any interleaving of fifty atomic try_reserve calls against a
fresh, active, window-free code with usage_limit_total one and no
per-user limit yields exactly one success and forty-nine
GlobalLimitExceeded rejections. -/
theorem fifty_concurrent_reserves (st : CoreState) (code : String)
    (p : PromoCode) (calls : List (Nat × Int))
    (hp : lookupPromo st code = some p) (hact : p.is_active = true)
    (hvf : p.valid_from = none) (hvu : p.valid_until = none)
    (hlim : p.usage_limit_total = some 1) (hpu : p.usage_limit_per_user = none)
    (hused : p.used_total = 0) (hlen : calls.length = 50) :
    countOk (runReserves code calls st).snd = 1 ∧
    countGlobal (runReserves code calls st).snd = 49 := by
  cases calls with
  | nil => simp at hlen
  | cons c rest =>
      obtain ⟨u, t⟩ := c
      have hg : globalLimitReached p = false := by
        unfold globalLimitReached
        rw [hlim, hused]
        rfl
      have hstep := try_reserve_fresh st code u t p hp hact hvf hvu hg hpu
      unfold runReserves
      rw [hstep]
      dsimp only
      have hlook : lookupPromo
          { st with
              promos := incrementUsed st.promos code
              reservations := (st.nextToken, ⟨code, u, t, false⟩) :: st.reservations
              nextToken := st.nextToken + 1 } code =
          some { p with used_total := p.used_total + 1 } :=
        lookupPromo_incrementUsed st.promos code p hp
      rw [runReserves_saturated code rest _ { p with used_total := p.used_total + 1 }
          1 hlook hact hvf hvu hlim (by rw [hused])]
      have hrest : rest.length = 49 := by
        simpa using hlen
      constructor
      · simp [countOk, List.filter_map, Function.comp_def, isOkResult]
      · simp [countGlobal, List.filter_map, Function.comp_def, isGlobalExceeded,
          hrest]

/-- A one-shot demonstration code for the fifty-caller run. -/
def fiftyState : CoreState :=
  { promos := [⟨"GOLD", Discount.amount 5, some 1, none, 0, none, none, true⟩]
    reservations := []
    records := []
    nextToken := 0
    referrals := []
    balances := []
    processedPurchases := []
    startBonusPaid := [] }

/-- Fifty distinct callers, all at time zero. -/
def fiftyCalls : List (Nat × Int) := (List.range 50).map (fun i => (i, 0))

/-- A concrete run of fifty_concurrent_reserves: fifty callers against
the one-shot GOLD code produce exactly one success and forty-nine
GlobalLimitExceeded rejections. -/
theorem fifty_concurrent_reserves_witness :
    fiftyCalls.length = 50 ∧
    countOk (runReserves "GOLD" fiftyCalls fiftyState).snd = 1 ∧
    countGlobal (runReserves "GOLD" fiftyCalls fiftyState).snd = 49 :=
  ⟨rfl,
   (fifty_concurrent_reserves fiftyState "GOLD"
      ⟨"GOLD", Discount.amount 5, some 1, none, 0, none, none, true⟩ fiftyCalls
      rfl rfl rfl rfl rfl rfl rfl rfl).1,
   (fifty_concurrent_reserves fiftyState "GOLD"
      ⟨"GOLD", Discount.amount 5, some 1, none, 0, none, none, true⟩ fiftyCalls
      rfl rfl rfl rfl rfl rfl rfl rfl).2⟩

end Xatabchik
